import Mathlib

/-!
Shallow embedding, in Lean 4, of the statistics-and-optimization core of the
`quars` portfolio optimizer (`src/portfolio.rs`, `src/optimization.rs`,
`src/config.rs`, `src/data/mod.rs`), together with theorems settling the
frozen claims about it.

Modelling conventions.

* `f64` values are modelled as exact rationals (`ℚ`).  Literals such as
  `0.5` and `1e-6` denote the exact rationals `1/2` and `1/1000000`.
* Rust `Result` values are modelled as `Except`; a Rust panic (out-of-bounds
  index, failed `assert_eq!`) in a function whose Rust type has no error
  channel is modelled by `Option`, with `none` standing for the panic.
* `(1.0 + r).powf(1.0 / 252.0) - 1.0` (`annual_to_daily_rate`) and
  `f64::sqrt` are irrational for general rational inputs, so the embedded
  optimizer takes the conversion function `a2d` and the square-root function
  `sqrtQ` as explicit parameters; every theorem quantifies over them.
* Rust `HashMap` iteration order is unspecified; the grouping map of the
  estimator is modelled as an association list in first-occurrence key
  order, which preserves exactly the per-asset price order the Rust code
  produces (prices are pushed in arrival order).
* The `ndarray` vectors and matrices of the estimator are lists of
  rationals; the optimizer, which works with a fixed asset count `n`
  (`stats.assets.len()`), is modelled over `Fin n → ℚ` vectors and
  `Matrix (Fin n) (Fin n) ℚ`.  The `assets` field enters the optimizer only
  through its length.
* Matrix inversion is delegated by the source to the external
  `ndarray_linalg::InverseInto` routine (outside this repository); it is
  modelled by `qInv`, which fails exactly on singular matrices and
  otherwise returns the true inverse `det⁻¹ • adjugate`.
-/

namespace Quars

/-- `Record` from `src/data/mod.rs`: one price observation. -/
structure Record where
  date : String
  asset : String
  price : ℚ
deriving DecidableEq

/-- The string errors returned by `calculate_portfolio_stats` and
`compute_sample_covariance` in `src/portfolio.rs`. -/
inductive StatsError where
  /-- "No assets found in data." -/
  | insufficientAssets
  /-- "Not enough data points to compute returns." -/
  | insufficientHistory
  /-- "Not enough observations to compute covariance." -/
  | insufficientObservations
deriving DecidableEq

/-- One step of the grouping loop of `calculate_portfolio_stats`:
`asset_prices.entry(record.asset.clone()).or_default().push(record.price)`.
The association list keeps first-occurrence key order. -/
def insertPrice : List (String × List ℚ) → String → ℚ → List (String × List ℚ)
  | [], a, p => [(a, [p])]
  | (k, ps) :: rest, a, p =>
    if k = a then (k, ps ++ [p]) :: rest else (k, ps) :: insertPrice rest a p

/-- The grouping loop `for record in data { asset_prices.entry(..).push(..) }`
of `calculate_portfolio_stats`. -/
def groupByAsset (data : List Record) : List (String × List ℚ) :=
  data.foldl (fun acc r => insertPrice acc r.asset r.price) []

/-- Arithmetic mean of a row, as `ndarray::mean_axis` computes it. -/
def rowMean (row : List ℚ) : ℚ := row.sum / (row.length : ℚ)

/-- The inner returns loop of `calculate_portfolio_stats`:
`for day in 0..(min_len - 1) { ret = (prices[day+1] - prices[day]) / prices[day] }`. -/
def computeReturns (prices : List ℚ) (minLen : ℕ) : List ℚ :=
  (List.range (minLen - 1)).map fun day =>
    (prices.getD (day + 1) 0 - prices.getD day 0) / prices.getD day 0

/-- `compute_sample_covariance` from `src/portfolio.rs`.  The dimensions of
the `(n_assets, n_obs)` array are modelled as the list length and the length
of the first row. -/
def compute_sample_covariance (returns : List (List ℚ)) :
    Except StatsError (List (List ℚ)) :=
  let n_assets := returns.length
  let n_obs := (returns.headD []).length
  if n_obs < 2 then .error .insufficientObservations
  else
    let centered := returns.map fun row => row.map fun x => x - rowMean row
    let factor : ℚ := 1 / ((n_obs : ℚ) - 1)
    .ok ((List.range n_assets).map fun i =>
      (List.range n_assets).map fun j =>
        factor * ((List.range n_obs).map fun k =>
          (centered.getD i []).getD k 0 * (centered.getD j []).getD k 0).sum)

/-- `PortfolioStats` from `src/portfolio.rs`. -/
structure PortfolioStats where
  assets : List String
  mean_returns : List ℚ
  covariance : List (List ℚ)
  returns_matrix : List (List ℚ)
deriving DecidableEq

/-- `usize::MAX`, the initial value of the `min_len` search. -/
def usizeMax : ℕ := 2 ^ 64 - 1

/-- `calculate_portfolio_stats` from `src/portfolio.rs`.  Note that the
grouping step never consults `record.date`: within an asset, prices stay in
arrival order. -/
def calculate_portfolio_stats (data : List Record) :
    Except StatsError PortfolioStats :=
  let asset_prices := groupByAsset data
  let assets := asset_prices.map Prod.fst
  if assets.length = 0 then .error .insufficientAssets
  else
    let min_len := asset_prices.foldl (fun m g => min m g.2.length) usizeMax
    if min_len < 2 then .error .insufficientHistory
    else
      let returns_matrix :=
        asset_prices.map fun g => computeReturns (g.2.take min_len) min_len
      let mean_returns := returns_matrix.map rowMean
      match compute_sample_covariance returns_matrix with
      | .error e => .error e
      | .ok covariance => .ok ⟨assets, mean_returns, covariance, returns_matrix⟩

/-- The sort used by `portfolio_var` and `portfolio_cvar`:
`sorted.sort_by(|a, b| a.partial_cmp(b).unwrap())` (a total order on ℚ). -/
def sortQ (l : List ℚ) : List ℚ := l.mergeSort fun a b => decide (a ≤ b)

/-- `portfolio_var` from `src/portfolio.rs`.  The Rust function returns a
plain `f64`; on an empty slice the access `sorted[sorted.len() - 1]` panics,
which is modelled by `none` (`List.get?` out of bounds).  The cast
`.ceil() as usize` saturates negative values to `0`, as `Int.toNat` does. -/
def portfolio_var (returns : List ℚ) (alpha : ℚ) : Option ℚ :=
  let sorted := sortQ returns
  let idx := (⌈(1 - alpha) * (sorted.length : ℚ)⌉).toNat
  if sorted.length ≤ idx then sorted.get? (sorted.length - 1)
  else sorted.get? idx

/-- `portfolio_cvar` from `src/portfolio.rs`; same panic modelling as
`portfolio_var`.  On the tail branch the Rust code computes
`tail.iter().sum::<f64>() / tail.len() as f64`. -/
def portfolio_cvar (returns : List ℚ) (alpha : ℚ) : Option ℚ :=
  let sorted := sortQ returns
  let idx := (⌈(1 - alpha) * (sorted.length : ℚ)⌉).toNat
  if sorted.length ≤ idx then sorted.get? (sorted.length - 1)
  else
    let tail := sorted.take idx
    some (tail.sum / (tail.length : ℚ))

/-- `compute_portfolio_returns` from `src/portfolio.rs`.  The Rust function
returns `Vec<f64>` and starts with
`assert_eq!(n_assets, weights.len(), ..)`; the failed assertion panics,
modelled by `none`.  The dimensions of the `(n_assets, n_samples)` array are
the list length and the length of the first row. -/
def compute_portfolio_returns (returns_matrix : List (List ℚ))
    (weights : List ℚ) : Option (List ℚ) :=
  let n_assets := returns_matrix.length
  let n_samples := (returns_matrix.headD []).length
  if n_assets = weights.length then
    some ((List.range n_samples).map fun t =>
      (List.range n_assets).foldl
        (fun ret_t i =>
          ret_t + (returns_matrix.getD i []).getD t 0 * weights.getD i 0) 0)
  else none

/-- Modelled from the spec (the reference description a refinement claim is
compared against, not source code): "Group observations by asset; within
each group, order by date (ascending)", then difference the prices,
"truncated to the minimal common length". -/
def specSortedReturns (data : List Record) (a : String) (minLen : ℕ) : List ℚ :=
  let obs := data.filter fun r => r.asset = a
  let sortedObs := obs.mergeSort fun r s => decide (r.date ≤ s.date)
  computeReturns ((sortedObs.map fun r => r.price).take minLen) minLen

/-- What the source actually computes per asset: simple returns over the
prices in arrival order, truncated to `minLen`. -/
def arrivalReturns (data : List Record) (a : String) (minLen : ℕ) : List ℚ :=
  computeReturns
    (((data.filter fun r => r.asset = a).map fun r => r.price).take minLen)
    minLen

/-- `PortofolioOptimization` from `src/config.rs`. -/
structure PortofolioOptimization where
  method : String
  sub_method : String
  risk_free_rate : ℚ
  params : List ℚ
deriving DecidableEq

/-- `MvoOptMethod` from `src/optimization.rs`. -/
inductive MvoOptMethod where
  | riskAdjusted (tau : ℚ)
  | nearOptimal (tau theta : ℚ)
deriving DecidableEq

/-- `MvoOptMethod::from_config` from `src/optimization.rs`.  The Rust `match`
on the method string is an equality chain; the indexings `params[0]` and
`params[1]` panic when absent, modelled by `Option`.  Note the wildcard arm:
an unrecognized `sub_method` silently yields `RiskAdjusted { tau: 0.3 }`. -/
def MvoOptMethod.from_config (po : PortofolioOptimization) : Option MvoOptMethod :=
  if po.sub_method = "risk-adjusted" then
    (po.params.get? 0).map MvoOptMethod.riskAdjusted
  else if po.sub_method = "near-optimal" then
    (po.params.get? 0).bind fun tau =>
      (po.params.get? 1).map fun theta => MvoOptMethod.nearOptimal tau theta
  else some (MvoOptMethod.riskAdjusted 0.3)

/-- The errors of `src/optimization.rs`: the inversion failure propagated
from `ndarray_linalg` by `cov.clone().inv_into()?`, and
"Optimal risky weights do not sum to 1.". -/
inductive OptError where
  | singular
  | weightNormalization
deriving DecidableEq

/-- The view of `PortfolioStats` the optimizer consumes: `assets` enters
only through its length `n` (`stats.assets.len()`), which here is the size
of the index type; `mean_returns` and `covariance` are the `n`-vector and
`n × n` matrix. -/
structure StatsV (n : ℕ) where
  mean_returns : Fin n → ℚ
  covariance : Matrix (Fin n) (Fin n) ℚ

/-- `FrontierPoint` from `src/optimization.rs`. -/
structure FrontierPoint (n : ℕ) where
  risk_free_weight : ℚ
  risky_weights : Fin n → ℚ
  expected_return : ℚ
  portfolio_std : ℚ
  sharpe_ratio : ℚ
deriving DecidableEq, Inhabited

/-- `OptimizationResults` from `src/optimization.rs`. -/
structure OptimizationResults (n : ℕ) where
  frontier : List (FrontierPoint n)
  optimal_risky_portfolio : Fin n → ℚ
  optimal_risky_return : ℚ
  optimal_risky_std : ℚ
  max_sharpe : ℚ
deriving DecidableEq, Inhabited

/-- The general dense-linear-algebra inversion routine the source delegates
to (`ndarray_linalg::InverseInto`, external to this repository): it fails
exactly on singular matrices and otherwise returns the true inverse, here
realized as `det⁻¹ • adjugate`. -/
def qInv {n : ℕ} (A : Matrix (Fin n) (Fin n) ℚ) :
    Option (Matrix (Fin n) (Fin n) ℚ) :=
  if A.det = 0 then none else some (A.det⁻¹ • A.adjugate)

/-- Equality of `Except` values is decidable componentwise. -/
instance {ε α : Type} [DecidableEq ε] [DecidableEq α] : DecidableEq (Except ε α) :=
  fun x y =>
    match x, y with
    | .ok v, .ok w => decidable_of_iff (v = w) (by simp)
    | .error v, .error w => decidable_of_iff (v = w) (by simp)
    | .ok _, .error _ => isFalse (by simp)
    | .error _, .ok _ => isFalse (by simp)

/-- The mean-variance utility `μᵀx − 0.5·τ·xᵀΣx`.  The source spells this
expression out at each use (`epsilon` and each candidate `utility`). -/
def utilityQ {n : ℕ} (mean : Fin n → ℚ) (cov : Matrix (Fin n) (Fin n) ℚ)
    (tau : ℚ) (x : Fin n → ℚ) : ℚ :=
  Matrix.dotProduct mean x - 0.5 * tau * Matrix.dotProduct x (cov.mulVec x)

/-- The concentration `xᵀx` (`x_blend.t().dot(&x_blend)`). -/
def concentrationQ {n : ℕ} (x : Fin n → ℚ) : ℚ := Matrix.dotProduct x x

/-- The normalized MVO direction of `optimize_near_optimal`:
`x_mvo_unnorm = cov_inv.dot(&mean)`, then `mapv(|val| val / sum_x)`. -/
def xMvoOf {n : ℕ} (cov_inv : Matrix (Fin n) (Fin n) ℚ)
    (mean : Fin n → ℚ) : Fin n → ℚ :=
  let x_mvo_unnorm := cov_inv.mulVec mean
  let sum_x := ∑ i, x_mvo_unnorm i
  fun i => x_mvo_unnorm i / sum_x

/-- The body of each candidate iteration of `optimize_near_optimal`: accept
when `utility >= theta * epsilon && (x_blend.sum() - 1.0).abs() < 1e-6`, and
keep the candidate when its concentration is strictly smaller than the best
so far.  The state is `(best_blend, weights_concentration)`. -/
def sweepStep {n : ℕ} (mean : Fin n → ℚ) (cov : Matrix (Fin n) (Fin n) ℚ)
    (tau theta epsilon : ℚ) (st : (Fin n → ℚ) × ℚ) (x_blend : Fin n → ℚ) :
    (Fin n → ℚ) × ℚ :=
  let utility := utilityQ mean cov tau x_blend
  if theta * epsilon ≤ utility ∧ |(∑ i, x_blend i) - 1| < 1e-6 then
    let concentration := concentrationQ x_blend
    if concentration < st.2 then (x_blend, concentration) else st
  else st

/-- The acceptance condition of a sweep candidate, exactly the `if` guard
of `sweepStep`: `utility >= theta * epsilon` and
`(x_blend.sum() - 1.0).abs() < 1e-6`. -/
def acceptsQ {n : ℕ} (mean : Fin n → ℚ) (cov : Matrix (Fin n) (Fin n) ℚ)
    (tau theta epsilon : ℚ) (c : Fin n → ℚ) : Prop :=
  theta * epsilon ≤ utilityQ mean cov tau c ∧ |(∑ i, c i) - 1| < 1e-6

/-- The candidates of the first sweep of `optimize_near_optimal`:
`x_blend = &x_equal * (1.0 - alpha) + &x_mvo * alpha` for
`alpha = i / 100`, `i` in `0..=100`. -/
def sweepA {n : ℕ} (x_equal x_mvo : Fin n → ℚ) : List (Fin n → ℚ) :=
  (List.range 101).map fun (i : ℕ) =>
    let alpha : ℚ := (i : ℚ) / 100
    fun j => x_equal j * (1 - alpha) + x_mvo j * alpha

/-- The candidates of the second ("inverse case") sweep:
`x_blend = &x_equal * alpha + &x_mvo * (1.0 - alpha)`. -/
def sweepB {n : ℕ} (x_equal x_mvo : Fin n → ℚ) : List (Fin n → ℚ) :=
  (List.range 101).map fun (i : ℕ) =>
    let alpha : ℚ := (i : ℚ) / 100
    fun j => x_equal j * alpha + x_mvo j * (1 - alpha)

/-- The frontier loop shared verbatim by `optimize_risk_adjusted` and
`optimize_near_optimal` (the source duplicates it textually in both). -/
def buildFrontier {n : ℕ} (daily_risk_free : ℚ) (optimal_risky : Fin n → ℚ)
    (optimal_risky_return optimal_risky_std : ℚ) (n_points : ℕ) :
    List (FrontierPoint n) :=
  let max_leverage : ℚ := 2
  let lambda_step := max_leverage / ((n_points : ℚ) - 1)
  (List.range n_points).map fun (i : ℕ) =>
    let leverage := (i : ℚ) * lambda_step
    let risk_free_weight := 1 - leverage
    let portfolio_return :=
      daily_risk_free + leverage * (optimal_risky_return - daily_risk_free)
    let portfolio_std := leverage * optimal_risky_std
    let sharpe_ratio :=
      if 0 < leverage then (portfolio_return - daily_risk_free) / portfolio_std
      else 0
    ⟨risk_free_weight, fun j => leverage * optimal_risky j, portfolio_return,
      portfolio_std, sharpe_ratio⟩

/-- The all-ones vector `Array1::<f64>::ones(n)`. -/
def onesV (n : ℕ) : Fin n → ℚ := fun _ => 1

/-- `excess = &mean - ones.mapv(|_| daily_risk_free)`. -/
def raExcess {n : ℕ} (mean : Fin n → ℚ) (daily_risk_free : ℚ) : Fin n → ℚ :=
  fun i => mean i - daily_risk_free

/-- `A = ones.dot(&cov_inv.dot(&ones))`. -/
def raA {n : ℕ} (cov_inv : Matrix (Fin n) (Fin n) ℚ) : ℚ :=
  Matrix.dotProduct (onesV n) (cov_inv.mulVec (onesV n))

/-- `B = ones.dot(&cov_inv.dot(&excess))`. -/
def raB {n : ℕ} (cov_inv : Matrix (Fin n) (Fin n) ℚ) (mean : Fin n → ℚ)
    (daily_risk_free : ℚ) : ℚ :=
  Matrix.dotProduct (onesV n) (cov_inv.mulVec (raExcess mean daily_risk_free))

/-- `lambda_multiplier = (B - 2.0 * tau) / A`. -/
def raLambda {n : ℕ} (cov_inv : Matrix (Fin n) (Fin n) ℚ) (mean : Fin n → ℚ)
    (daily_risk_free tau : ℚ) : ℚ :=
  (raB cov_inv mean daily_risk_free - 2 * tau) / raA cov_inv

/-- `optimal_risky = cov_inv.dot(&(&excess - ones.mapv(|_| lambda_multiplier))) * factor`
with `factor = 1.0 / (2.0 * tau)`. -/
def raWeights {n : ℕ} (cov_inv : Matrix (Fin n) (Fin n) ℚ) (mean : Fin n → ℚ)
    (daily_risk_free tau : ℚ) : Fin n → ℚ :=
  fun i =>
    cov_inv.mulVec
      (fun j => raExcess mean daily_risk_free j -
        raLambda cov_inv mean daily_risk_free tau) i * (1 / (2 * tau))

/-- The derived tail shared verbatim by both optimizers: expected return,
variance, standard deviation (`sqrtQ` models `f64::sqrt`), maximal Sharpe
ratio, and the frontier, assembled into `OptimizationResults`. -/
def mkResults {n : ℕ} (sqrtQ : ℚ → ℚ) (mean : Fin n → ℚ)
    (cov : Matrix (Fin n) (Fin n) ℚ) (daily_risk_free : ℚ)
    (optimal_risky : Fin n → ℚ) (n_points : ℕ) : OptimizationResults n :=
  let optimal_risky_return := Matrix.dotProduct mean optimal_risky
  let variance_risky := Matrix.dotProduct optimal_risky (cov.mulVec optimal_risky)
  let optimal_risky_std := sqrtQ variance_risky
  let max_sharpe := (optimal_risky_return - daily_risk_free) / optimal_risky_std
  ⟨buildFrontier daily_risk_free optimal_risky optimal_risky_return
      optimal_risky_std n_points,
    optimal_risky, optimal_risky_return, optimal_risky_std, max_sharpe⟩

/-- `optimize_risk_adjusted` from `src/optimization.rs`.  `a2d` models
`annual_to_daily_rate` and `sqrtQ` models `f64::sqrt` (see the header). -/
def optimize_risk_adjusted {n : ℕ} (a2d sqrtQ : ℚ → ℚ) (stats : StatsV n)
    (risk_free_rate tau : ℚ) (n_points : ℕ) :
    Except OptError (OptimizationResults n) :=
  let mean := stats.mean_returns
  let cov := stats.covariance
  let daily_risk_free := a2d risk_free_rate
  match qInv cov with
  | none => .error .singular
  | some cov_inv =>
    let optimal_risky := raWeights cov_inv mean daily_risk_free tau
    let sum_weights := ∑ i, optimal_risky i
    if 1e-6 < |sum_weights - 1| then .error .weightNormalization
    else .ok (mkResults sqrtQ mean cov daily_risk_free optimal_risky n_points)

/-- The equal-weight vector `Array1::from_elem(n, 1.0 / n as f64)`. -/
def xEqual (n : ℕ) : Fin n → ℚ := fun _ => 1 / (n : ℚ)

/-- The two candidate sweeps of `optimize_near_optimal`, folded with
`sweepStep` from the initial state `(x_mvo, x_mvo.t().dot(&x_mvo))`;
returns the final `(best_blend, weights_concentration)` state. -/
def noBest {n : ℕ} (mean : Fin n → ℚ) (cov : Matrix (Fin n) (Fin n) ℚ)
    (tau theta : ℚ) (x_mvo : Fin n → ℚ) : (Fin n → ℚ) × ℚ :=
  let epsilon := utilityQ mean cov tau x_mvo
  let st1 := (sweepA (xEqual n) x_mvo).foldl
    (sweepStep mean cov tau theta epsilon) (x_mvo, concentrationQ x_mvo)
  (sweepB (xEqual n) x_mvo).foldl (sweepStep mean cov tau theta epsilon) st1

/-- `optimize_near_optimal` from `src/optimization.rs`.  The two `for`
loops are the folds of `sweepStep` over `sweepA` and `sweepB` (see
`noBest`).  The `dbg!` and `print!` statements have no computational
effect and are not modelled. -/
def optimize_near_optimal {n : ℕ} (a2d sqrtQ : ℚ → ℚ) (stats : StatsV n)
    (risk_free_rate tau theta : ℚ) (n_points : ℕ) :
    Except OptError (OptimizationResults n) :=
  let mean := stats.mean_returns
  let cov := stats.covariance
  match qInv cov with
  | none => .error .singular
  | some cov_inv =>
    let daily_risk_free := a2d risk_free_rate
    let x_mvo := xMvoOf cov_inv mean
    let optimal_risky := (noBest mean cov tau theta x_mvo).1
    .ok (mkResults sqrtQ mean cov daily_risk_free optimal_risky n_points)

/-- `optimize_portfolio` from `src/optimization.rs`: dispatch on the
configured method.  The outer `Option` is the panic channel inherited from
`from_config`. -/
def optimize_portfolio {n : ℕ} (a2d sqrtQ : ℚ → ℚ) (stats : StatsV n)
    (n_points : ℕ) (po : PortofolioOptimization) :
    Option (Except OptError (OptimizationResults n)) :=
  (MvoOptMethod.from_config po).map fun opt_method =>
    match opt_method with
    | .riskAdjusted tau =>
      optimize_risk_adjusted a2d sqrtQ stats po.risk_free_rate tau n_points
    | .nearOptimal tau theta =>
      optimize_near_optimal a2d sqrtQ stats po.risk_free_rate tau theta n_points

/-- Sample statistics used by witnesses: one asset, mean return `1/2`,
unit covariance. -/
def stats1 : StatsV 1 := ⟨fun _ => 0.5, fun _ _ => 1⟩

/-- Sample statistics with zero mean return: the unnormalized MVO direction
`Σ⁻¹μ` sums to `0`, the degenerate normalization case. -/
def statsM : StatsV 1 := ⟨fun _ => 0, fun _ _ => 1⟩

/-- One asset whose observations arrive out of date order: prices `1, 4, 2`
on the days `01, 03, 02`. -/
def dataC2 : List Record :=
  [⟨"2024-01-01", "A", 1⟩, ⟨"2024-01-03", "A", 4⟩, ⟨"2024-01-02", "A", 2⟩]

/-- The inverse of the `1 × 1` unit covariance of `stats1` and `statsM`. -/
def M1 : Matrix (Fin 1) (Fin 1) ℚ := fun _ _ => 1

/-- A configuration whose `sub_method` is not a recognized name. -/
def po_bogus : PortofolioOptimization := ⟨"mean-variance", "bogus", 0, []⟩

/-- The return series of the worked example in the spec. -/
def exampleReturns : List ℚ := [-0.05, -0.02, 0.01, 0.03, 0.04]

/-- The Risk-Adjusted result on `stats1` with `rf = 0`, `tau = 0.25` and a
two-point frontier, used by witnesses. -/
def res1ra : OptimizationResults 1 :=
  mkResults id stats1.mean_returns stats1.covariance (id 0)
    (raWeights M1 stats1.mean_returns (id 0) 0.25) 2

/-- The Near-Optimal result on `stats1` with `rf = 0`, `tau = 0.25`,
`theta = 0.5` and an empty frontier, used by witnesses. -/
def resNo1 : OptimizationResults 1 :=
  mkResults id stats1.mean_returns stats1.covariance (id 0)
    (noBest stats1.mean_returns stats1.covariance 0.25 0.5
      (xMvoOf M1 stats1.mean_returns)).1 0

/-- Proof-side accessor for the grouping map: the price list of the first
group with the given key (empty when absent), mirroring `asset_prices[asset]`. -/
def lookupG (acc : List (String × List ℚ)) (a : String) : List ℚ :=
  ((acc.find? fun g => decide (g.1 = a)).map Prod.snd).getD []

/-! ## Characterization of the optimizers -/

theorem qInv_mul_eq_one {n : ℕ} {A M : Matrix (Fin n) (Fin n) ℚ}
    (h : qInv A = some M) : A * M = 1 := by
  unfold qInv at h
  by_cases hdet : A.det = 0
  · rw [if_pos hdet] at h
    exact Option.noConfusion h
  · rw [if_neg hdet, Option.some_inj] at h
    subst h
    rw [Matrix.mul_smul, Matrix.mul_adjugate, smul_smul, inv_mul_cancel₀ hdet,
      one_smul]

theorem qInv_det_ne_zero {n : ℕ} {A M : Matrix (Fin n) (Fin n) ℚ}
    (h : qInv A = some M) : A.det ≠ 0 := by
  unfold qInv at h
  by_cases hdet : A.det = 0
  · rw [if_pos hdet] at h
    exact Option.noConfusion h
  · exact hdet

theorem qInv_isSome_of_det {n : ℕ} {A : Matrix (Fin n) (Fin n) ℚ}
    (hdet : A.det ≠ 0) : qInv A = some (A.det⁻¹ • A.adjugate) := by
  unfold qInv
  rw [if_neg hdet]

theorem matrix_fin_one_eq {A B : Matrix (Fin 1) (Fin 1) ℚ}
    (h : A 0 0 = B 0 0) : A = B := by
  funext i j
  fin_cases i
  fin_cases j
  exact h

theorem qInv_M1 : qInv stats1.covariance = some M1 := by
  rw [qInv_isSome_of_det (by with_unfolding_all decide)]
  exact congrArg some (matrix_fin_one_eq (by with_unfolding_all decide))

theorem optimize_risk_adjusted_ok_eq {n : ℕ} (a2d sqrtQ : ℚ → ℚ)
    (stats : StatsV n) (rf tau : ℚ) (N : ℕ) (M : Matrix (Fin n) (Fin n) ℚ)
    (hM : qInv stats.covariance = some M)
    (hcheck : ¬ 1e-6 < |(∑ i, raWeights M stats.mean_returns (a2d rf) tau i) - 1|) :
    optimize_risk_adjusted a2d sqrtQ stats rf tau N =
      .ok (mkResults sqrtQ stats.mean_returns stats.covariance (a2d rf)
        (raWeights M stats.mean_returns (a2d rf) tau) N) := by
  unfold optimize_risk_adjusted
  simp only [hM]
  rw [if_neg hcheck]

theorem optimize_near_optimal_ok_eq {n : ℕ} (a2d sqrtQ : ℚ → ℚ)
    (stats : StatsV n) (rf tau theta : ℚ) (N : ℕ)
    (M : Matrix (Fin n) (Fin n) ℚ) (hM : qInv stats.covariance = some M) :
    optimize_near_optimal a2d sqrtQ stats rf tau theta N =
      .ok (mkResults sqrtQ stats.mean_returns stats.covariance (a2d rf)
        (noBest stats.mean_returns stats.covariance tau theta
          (xMvoOf M stats.mean_returns)).1 N) := by
  unfold optimize_near_optimal
  simp only [hM]

theorem optimize_risk_adjusted_ok_mk {n : ℕ} {a2d sqrtQ : ℚ → ℚ}
    {stats : StatsV n} {rf tau : ℚ} {N : ℕ} {res : OptimizationResults n}
    (h : optimize_risk_adjusted a2d sqrtQ stats rf tau N = .ok res) :
    res = mkResults sqrtQ stats.mean_returns stats.covariance (a2d rf)
      res.optimal_risky_portfolio N := by
  unfold optimize_risk_adjusted at h
  cases hq : qInv stats.covariance with
  | none =>
    simp only [hq] at h
    exact Except.noConfusion h
  | some M =>
    simp only [hq] at h
    by_cases hch :
      1e-6 < |(∑ i, raWeights M stats.mean_returns (a2d rf) tau i) - 1|
    · rw [if_pos hch] at h
      exact Except.noConfusion h
    · rw [if_neg hch] at h
      rw [Except.ok.injEq] at h
      rw [← h]
      exact rfl

theorem optimize_near_optimal_ok_mk {n : ℕ} {a2d sqrtQ : ℚ → ℚ}
    {stats : StatsV n} {rf tau theta : ℚ} {N : ℕ} {res : OptimizationResults n}
    (h : optimize_near_optimal a2d sqrtQ stats rf tau theta N = .ok res) :
    res = mkResults sqrtQ stats.mean_returns stats.covariance (a2d rf)
      res.optimal_risky_portfolio N := by
  unfold optimize_near_optimal at h
  cases hq : qInv stats.covariance with
  | none =>
    simp only [hq] at h
    exact Except.noConfusion h
  | some M =>
    simp only [hq] at h
    rw [Except.ok.injEq] at h
    rw [← h]
    exact rfl

/-! ## C7: conditional VaR on an empty series -/

/-- C7 counterexample.  The claim states that `conditional_value_at_risk` on
an empty series fails with `EmptyReturnsError`, returned as an error to the
caller.  The source function has return type `f64` — it has no error channel
at all — and on the empty slice it evaluates `sorted[sorted.len() - 1]`,
an out-of-bounds access that panics; `none` models that panic, so no
`EmptyReturnsError` (nor any other error value) ever reaches the caller. -/
theorem c7_counterexample : portfolio_cvar [] 0.8 = none := by
  with_unfolding_all decide

/-- C7 amended: on an empty return series `portfolio_cvar` panics via the
out-of-bounds index `sorted.len() - 1` (modelled `none`) for every
confidence level, instead of returning an `EmptyReturnsError` value. -/
theorem c7_theorem (alpha : ℚ) : portfolio_cvar [] alpha = none := by
  unfold portfolio_cvar sortQ
  simp [List.mergeSort_nil]

/-! ## C9: portfolio returns dimension mismatch -/

theorem foldl_add_eq_sum (f : ℕ → ℚ) (l : List ℕ) (a : ℚ) :
    l.foldl (fun acc i => acc + f i) a = a + (l.map f).sum := by
  induction l generalizing a with
  | nil => simp
  | cons hd tl ih => simp [ih (a + f hd), add_assoc]

/-- C9 counterexample.  The claim states `portfolio_returns` fails with
`DimensionMismatchError` returned as an error to the immediate caller.  The
source function returns a plain `Vec<f64>` and enforces the dimension check
with `assert_eq!`, which panics (modelled `none`): the caller never receives
an error value.  Here a `1 × 1` matrix meets a length-2 weight vector. -/
theorem c9_counterexample : compute_portfolio_returns [[0.5]] [1, 1] = none := by
  decide

/-- C9 amended: when the weight length differs from the number of matrix
rows, `compute_portfolio_returns` panics on its `assert_eq!` (modelled
`none`) rather than returning an error; when the lengths match, it returns
the vector whose entry `t` is the weighted sum of asset returns at period
`t`. -/
theorem c9_theorem (returns_matrix : List (List ℚ)) (weights : List ℚ) :
    (returns_matrix.length ≠ weights.length →
      compute_portfolio_returns returns_matrix weights = none) ∧
    (returns_matrix.length = weights.length →
      compute_portfolio_returns returns_matrix weights =
        some ((List.range (returns_matrix.headD []).length).map fun t =>
          ((List.range returns_matrix.length).map fun i =>
            (returns_matrix.getD i []).getD t 0 * weights.getD i 0).sum)) := by
  constructor
  · intro hne
    unfold compute_portfolio_returns
    rw [if_neg hne]
  · intro heq
    unfold compute_portfolio_returns
    rw [if_pos heq]
    refine congrArg some (List.map_congr_left fun t _ => ?_)
    rw [foldl_add_eq_sum (fun i =>
      (returns_matrix.getD i []).getD t 0 * weights.getD i 0), zero_add]

/-- C9 witness: on a matching `1 × 2` matrix and one weight the function
returns the per-period weighted sums. -/
theorem c9_witness : compute_portfolio_returns [[0.5, 0.25]] [2] = some [1, 0.5] := by
  rw [(c9_theorem [[0.5, 0.25]] [2]).2 (by decide)]
  with_unfolding_all decide

/-! ## C6: unrecognized optimization method names -/

/-- C6 counterexample.  The claim states that an unrecognized method name
makes `optimize` fail fast with an error.  Instead `from_config` silently
falls back to `RiskAdjusted { tau: 0.3 }` and the optimization proceeds to
an `Ok` result on perfectly valid statistics. -/
theorem c6_counterexample :
    MvoOptMethod.from_config po_bogus = some (.riskAdjusted 0.3) ∧
    ∃ r, optimize_portfolio id id stats1 2 po_bogus = some (.ok r) := by
  have hfc : MvoOptMethod.from_config po_bogus = some (.riskAdjusted 0.3) := by
    with_unfolding_all decide
  refine ⟨hfc, ?_⟩
  have hM : qInv stats1.covariance = some M1 := qInv_M1
  have hcheck :
      ¬ 1e-6 < |(∑ i, raWeights M1 stats1.mean_returns (id 0) 0.3 i) - 1| := by
    with_unfolding_all decide
  have hok := optimize_risk_adjusted_ok_eq id id stats1 0 0.3 2 M1 hM hcheck
  refine ⟨mkResults id stats1.mean_returns stats1.covariance (id 0)
    (raWeights M1 stats1.mean_returns (id 0) 0.3) 2, ?_⟩
  unfold optimize_portfolio
  rw [hfc]
  exact congrArg some hok

/-- C6 amended: an unrecognized `sub_method` does not fail; `from_config`
silently defaults to the Risk-Adjusted method with `tau = 0.3`, and
`optimize_portfolio` then runs `optimize_risk_adjusted` with that `tau`. -/
theorem c6_theorem (po : PortofolioOptimization)
    (h1 : po.sub_method ≠ "risk-adjusted") (h2 : po.sub_method ≠ "near-optimal") :
    MvoOptMethod.from_config po = some (.riskAdjusted 0.3) ∧
    ∀ (n : ℕ) (a2d sqrtQ : ℚ → ℚ) (stats : StatsV n) (N : ℕ),
      optimize_portfolio a2d sqrtQ stats N po =
        some (optimize_risk_adjusted a2d sqrtQ stats po.risk_free_rate 0.3 N) := by
  have hfc : MvoOptMethod.from_config po = some (.riskAdjusted 0.3) := by
    unfold MvoOptMethod.from_config
    rw [if_neg h1, if_neg h2]
  refine ⟨hfc, fun n a2d sqrtQ stats N => ?_⟩
  unfold optimize_portfolio
  rw [hfc]
  rfl

/-- C6 witness: the amended theorem applied to the concrete configuration
`po_bogus` and the sample statistics `stats1`. -/
theorem c6_witness :
    MvoOptMethod.from_config po_bogus = some (.riskAdjusted 0.3) ∧
    optimize_portfolio id id stats1 2 po_bogus =
      some (optimize_risk_adjusted id id stats1 po_bogus.risk_free_rate 0.3 2) := by
  have h := c6_theorem po_bogus (by decide) (by decide)
  exact ⟨h.1, h.2 1 id id stats1 2⟩

/-! ## C8: frontier point count below 2 -/

/-- C8 counterexample.  The claim states both methods fail with
`InvalidFrontierResolutionError` whenever `N < 2`.  No such validation
exists in the source: with `N = 0 < 2` and a perfectly valid input
(invertible covariance), both methods return `Ok` (with an empty frontier;
with `N = 1` the leverage step divides by zero instead of erroring). -/
theorem c8_counterexample :
    (0 : ℕ) < 2 ∧ stats1.covariance.det ≠ 0 ∧
    (∃ r, optimize_risk_adjusted id id stats1 0 0.25 0 = .ok r) ∧
    ∃ r, optimize_near_optimal id id stats1 0 0.25 0.5 0 = .ok r := by
  have hM : qInv stats1.covariance = some M1 := qInv_M1
  refine ⟨by decide, by with_unfolding_all decide,
    ⟨mkResults id stats1.mean_returns stats1.covariance (id 0)
      (raWeights M1 stats1.mean_returns (id 0) 0.25) 0, ?_⟩,
    ⟨mkResults id stats1.mean_returns stats1.covariance (id 0)
      (noBest stats1.mean_returns stats1.covariance 0.25 0.5
        (xMvoOf M1 stats1.mean_returns)).1 0, ?_⟩⟩
  · exact optimize_risk_adjusted_ok_eq id id stats1 0 0.25 0 M1 hM
      (by with_unfolding_all decide)
  · exact optimize_near_optimal_ok_eq id id stats1 0 0.25 0.5 0 M1 hM

/-- C8 amended: neither optimizer inspects `frontier_point_count` for
validity — whether they succeed is entirely independent of `N`, so no
`InvalidFrontierResolutionError` is ever raised for `N < 2` (the division
by `N - 1` is simply performed, in floating point in the source). -/
theorem c8_theorem (n : ℕ) (a2d sqrtQ : ℚ → ℚ) (stats : StatsV n)
    (rf tau theta : ℚ) (N1 N2 : ℕ) :
    (optimize_risk_adjusted a2d sqrtQ stats rf tau N1).isOk =
      (optimize_risk_adjusted a2d sqrtQ stats rf tau N2).isOk ∧
    (optimize_near_optimal a2d sqrtQ stats rf tau theta N1).isOk =
      (optimize_near_optimal a2d sqrtQ stats rf tau theta N2).isOk := by
  constructor
  · unfold optimize_risk_adjusted
    cases hq : qInv stats.covariance with
    | none => simp only [hq]
    | some M =>
      simp only [hq]
      split_ifs <;> rfl
  · unfold optimize_near_optimal
    cases hq : qInv stats.covariance with
    | none => simp only [hq]
    | some M =>
      simp only [hq]
      rfl

/-! ## Sorted-list facts for the risk metrics -/

theorem sortQ_sorted (l : List ℚ) : (sortQ l).Pairwise (fun a b => a ≤ b) := by
  have h := @List.sorted_mergeSort ℚ (fun a b : ℚ => decide (a ≤ b))
    (fun a b c hab hbc =>
      decide_eq_true (le_trans (of_decide_eq_true hab) (of_decide_eq_true hbc)))
    (fun a b => by simpa using le_total a b) l
  exact h.imp fun hb => of_decide_eq_true hb

theorem sortQ_perm (l : List ℚ) : (sortQ l).Perm l :=
  List.mergeSort_perm l _

theorem sortQ_length (l : List ℚ) : (sortQ l).length = l.length :=
  (sortQ_perm l).length_eq

theorem get?_eq_some_getD {l : List ℚ} {k : ℕ} (hk : k < l.length) :
    l.get? k = some (l.getD k 0) := by
  rw [List.getD_eq_getElem?_getD, List.get?_eq_getElem?,
    List.getElem?_eq_getElem hk]
  rfl

theorem portfolio_var_eq (r : List ℚ) (alpha : ℚ) :
    portfolio_var r alpha =
      if (sortQ r).length ≤ (⌈(1 - alpha) * ((sortQ r).length : ℚ)⌉).toNat
      then (sortQ r).get? ((sortQ r).length - 1)
      else (sortQ r).get? ((⌈(1 - alpha) * ((sortQ r).length : ℚ)⌉).toNat) := rfl

theorem portfolio_cvar_eq (r : List ℚ) (alpha : ℚ) :
    portfolio_cvar r alpha =
      if (sortQ r).length ≤ (⌈(1 - alpha) * ((sortQ r).length : ℚ)⌉).toNat
      then (sortQ r).get? ((sortQ r).length - 1)
      else
        some (((sortQ r).take ((⌈(1 - alpha) * ((sortQ r).length : ℚ)⌉).toNat)).sum /
          ((((sortQ r).take ((⌈(1 - alpha) * ((sortQ r).length : ℚ)⌉).toNat)).length : ℚ))) :=
  rfl

/-! ## C3: the historical VaR/CVaR quantile rule and the worked example -/

/-- C3: for every non-empty series, `portfolio_var` returns an entry of an
ascending sorted permutation of the input at position
`idx = ceil((1-alpha)*T)` (saturated at `0`), falling back to the worst
(last) sorted value when `idx ≥ T`; the spec example evaluates to
`VaR = -0.02` and `CVaR = -0.05` at `alpha = 0.8`. -/
theorem c3_theorem (r : List ℚ) (alpha : ℚ) (h : r ≠ []) :
    (∃ s : List ℚ, s.Pairwise (fun a b => a ≤ b) ∧ s.Perm r ∧
      portfolio_var r alpha =
        some (if r.length ≤ (⌈(1 - alpha) * (r.length : ℚ)⌉).toNat
          then s.getD (r.length - 1) 0
          else s.getD ((⌈(1 - alpha) * (r.length : ℚ)⌉).toNat) 0)) ∧
    portfolio_var exampleReturns 0.8 = some (-0.02) ∧
    portfolio_cvar exampleReturns 0.8 = some (-0.05) := by
  have hpos : 0 < r.length := List.length_pos.mpr h
  refine ⟨⟨sortQ r, sortQ_sorted r, sortQ_perm r, ?_⟩,
    by with_unfolding_all decide, by with_unfolding_all decide⟩
  rw [portfolio_var_eq, sortQ_length]
  split_ifs with hc
  · exact get?_eq_some_getD (by rw [sortQ_length]; omega)
  · exact get?_eq_some_getD (by rw [sortQ_length]; omega)

/-- C3 witness: the theorem applied to the worked example of the spec. -/
theorem c3_witness :
    (∃ s : List ℚ, s.Pairwise (fun a b => a ≤ b) ∧ s.Perm exampleReturns ∧
      portfolio_var exampleReturns 0.8 =
        some (if exampleReturns.length ≤
            (⌈(1 - 0.8) * (exampleReturns.length : ℚ)⌉).toNat
          then s.getD (exampleReturns.length - 1) 0
          else s.getD ((⌈(1 - 0.8) * (exampleReturns.length : ℚ)⌉).toNat) 0)) ∧
    portfolio_var exampleReturns 0.8 = some (-0.02) ∧
    portfolio_cvar exampleReturns 0.8 = some (-0.05) :=
  c3_theorem exampleReturns 0.8 (by decide)

/-! ## C4: VaR dominates CVaR -/

/-- C4: for every non-empty, non-constant return series and every
confidence level strictly between 0 and 1, both metrics are defined and
`CVaR ≤ VaR`: the mean of the worst `idx` sorted observations is at or
below the `idx`-th smallest observation. -/
theorem c4_theorem (r : List ℚ) (alpha : ℚ) (hne : r ≠ [])
    (hnc : ∃ a ∈ r, ∃ b ∈ r, a ≠ b) (h0 : 0 < alpha) (h1 : alpha < 1) :
    ∃ v c, portfolio_var r alpha = some v ∧ portfolio_cvar r alpha = some c ∧
      c ≤ v := by
  have hpos : 0 < r.length := List.length_pos.mpr hne
  have hslen : (sortQ r).length = r.length := sortQ_length r
  have hposq : (0 : ℚ) < (1 - alpha) * ((sortQ r).length : ℚ) := by
    have : (0 : ℚ) < ((sortQ r).length : ℚ) := by exact_mod_cast hslen ▸ hpos
    have h1a : (0 : ℚ) < 1 - alpha := by linarith
    exact mul_pos h1a this
  have hceil : 0 < ⌈(1 - alpha) * ((sortQ r).length : ℚ)⌉ := Int.ceil_pos.mpr hposq
  have hidx1 : 1 ≤ (⌈(1 - alpha) * ((sortQ r).length : ℚ)⌉).toNat := by omega
  by_cases hb : (sortQ r).length ≤ (⌈(1 - alpha) * ((sortQ r).length : ℚ)⌉).toNat
  · refine ⟨(sortQ r).getD ((sortQ r).length - 1) 0,
      (sortQ r).getD ((sortQ r).length - 1) 0, ?_, ?_, le_refl _⟩
    · rw [portfolio_var_eq, if_pos hb]
      exact get?_eq_some_getD (by omega)
    · rw [portfolio_cvar_eq, if_pos hb]
      exact get?_eq_some_getD (by omega)
  · push_neg at hb
    set idx := (⌈(1 - alpha) * ((sortQ r).length : ℚ)⌉).toNat with hidxdef
    have hvget : (sortQ r).getD idx 0 = (sortQ r).get ⟨idx, hb⟩ := by
      rw [List.getD_eq_getElem?_getD, List.getElem?_eq_getElem hb]
      rfl
    have htlen : ((sortQ r).take idx).length = idx := by
      rw [List.length_take]
      omega
    have hbound : ∀ x ∈ (sortQ r).take idx, x ≤ (sortQ r).getD idx 0 := by
      intro x hx
      obtain ⟨⟨j, hj⟩, rfl⟩ := List.mem_iff_get.mp hx
      have hjidx : j < idx := by omega
      have hjlen : j < (sortQ r).length := by omega
      have hget : ((sortQ r).take idx).get ⟨j, hj⟩ = (sortQ r).get ⟨j, hjlen⟩ := by
        simp only [List.get_eq_getElem]
        exact (List.getElem_take' (sortQ r) hjlen hjidx).symm
      rw [hget, hvget]
      exact List.pairwise_iff_get.mp (sortQ_sorted r) ⟨j, hjlen⟩ ⟨idx, hb⟩
        (by exact hjidx)
    have hsum : ((sortQ r).take idx).sum ≤
        ((sortQ r).take idx).length • ((sortQ r).getD idx 0) :=
      List.sum_le_card_nsmul _ _ hbound
    refine ⟨(sortQ r).getD idx 0,
      ((sortQ r).take idx).sum / ((((sortQ r).take idx).length : ℚ)), ?_, ?_, ?_⟩
    · rw [portfolio_var_eq, if_neg (by omega)]
      exact get?_eq_some_getD hb
    · rw [portfolio_cvar_eq, if_neg (by omega)]
    · rw [htlen] at hsum ⊢
      have hidxq : (0 : ℚ) < (idx : ℚ) := by exact_mod_cast hidx1
      rw [div_le_iff₀ hidxq]
      calc ((sortQ r).take idx).sum ≤ idx • ((sortQ r).getD idx 0) := hsum
        _ = (idx : ℚ) * ((sortQ r).getD idx 0) := by rw [nsmul_eq_mul]
        _ = (sortQ r).getD idx 0 * (idx : ℚ) := by ring

/-- C4 witness: the inequality on the worked example at `alpha = 1/2`. -/
theorem c4_witness :
    ∃ v c, portfolio_var exampleReturns 0.5 = some v ∧
      portfolio_cvar exampleReturns 0.5 = some c ∧ c ≤ v :=
  c4_theorem exampleReturns 0.5 (by decide)
    ⟨-0.05, by with_unfolding_all decide, -0.02, by with_unfolding_all decide,
      by with_unfolding_all decide⟩
    (by with_unfolding_all decide) (by with_unfolding_all decide)

/-! ## C10: the leveraged frontier scales linearly -/

theorem buildFrontier_length {n : ℕ} (drf : ℚ) (w : Fin n → ℚ)
    (ret std : ℚ) (N : ℕ) : (buildFrontier drf w ret std N).length = N := by
  unfold buildFrontier
  rw [List.length_map, List.length_range]

theorem buildFrontier_getD {n : ℕ} (drf : ℚ) (w : Fin n → ℚ) (ret std : ℚ)
    (N k : ℕ) (hk : k < N) :
    (buildFrontier drf w ret std N).getD k default =
      ⟨1 - (k : ℚ) * (2 / ((N : ℚ) - 1)),
       fun j => ((k : ℚ) * (2 / ((N : ℚ) - 1))) * w j,
       drf + ((k : ℚ) * (2 / ((N : ℚ) - 1))) * (ret - drf),
       ((k : ℚ) * (2 / ((N : ℚ) - 1))) * std,
       if 0 < (k : ℚ) * (2 / ((N : ℚ) - 1))
       then (drf + ((k : ℚ) * (2 / ((N : ℚ) - 1))) * (ret - drf) - drf) /
         (((k : ℚ) * (2 / ((N : ℚ) - 1))) * std)
       else 0⟩ := by
  unfold buildFrontier
  rw [List.getD_eq_getElem?_getD, List.getElem?_map, List.getElem?_range hk]
  rfl

/-- C10: for both methods, every returned frontier has exactly `N` points,
and point `k` carries risky weights `leverage(k) • optimal_risky_weights`,
standard deviation `leverage(k) * optimal_risky_std` and expected return
`rf_period + leverage(k) * (optimal_risky_return - rf_period)`, where
`leverage(k) = k * (2 / (N - 1))` and `rf_period = a2d rf`; in particular
point `0` has both Sharpe ratio and standard deviation equal to `0`. -/
theorem c10_theorem (n : ℕ) (a2d sqrtQ : ℚ → ℚ) (stats : StatsV n)
    (rf tau theta : ℚ) (N : ℕ) (res : OptimizationResults n) (k : ℕ)
    (h : optimize_risk_adjusted a2d sqrtQ stats rf tau N = .ok res ∨
      optimize_near_optimal a2d sqrtQ stats rf tau theta N = .ok res)
    (hk : k < N) :
    res.frontier.length = N ∧
    (res.frontier.getD k default).risky_weights =
      (fun j => ((k : ℚ) * (2 / ((N : ℚ) - 1))) * res.optimal_risky_portfolio j) ∧
    (res.frontier.getD k default).portfolio_std =
      ((k : ℚ) * (2 / ((N : ℚ) - 1))) * res.optimal_risky_std ∧
    (res.frontier.getD k default).expected_return =
      a2d rf + ((k : ℚ) * (2 / ((N : ℚ) - 1))) * (res.optimal_risky_return - a2d rf) ∧
    (k = 0 → (res.frontier.getD k default).sharpe_ratio = 0 ∧
      (res.frontier.getD k default).portfolio_std = 0) := by
  have hmk : res = mkResults sqrtQ stats.mean_returns stats.covariance (a2d rf)
      res.optimal_risky_portfolio N := by
    rcases h with h | h
    · exact optimize_risk_adjusted_ok_mk h
    · exact optimize_near_optimal_ok_mk h
  have e_ret : res.optimal_risky_return =
      Matrix.dotProduct stats.mean_returns res.optimal_risky_portfolio := by
    conv_lhs => rw [hmk]
    exact rfl
  have e_std : res.optimal_risky_std =
      sqrtQ (Matrix.dotProduct res.optimal_risky_portfolio
        (stats.covariance.mulVec res.optimal_risky_portfolio)) := by
    conv_lhs => rw [hmk]
    exact rfl
  have hfr : res.frontier = buildFrontier (a2d rf) res.optimal_risky_portfolio
      res.optimal_risky_return res.optimal_risky_std N := by
    rw [e_ret, e_std]
    conv_lhs => rw [hmk]
    exact rfl
  rw [hfr, buildFrontier_length, buildFrontier_getD _ _ _ _ _ _ hk]
  refine ⟨rfl, rfl, rfl, rfl, fun hk0 => ?_⟩
  subst hk0
  norm_num

/-- C10 witness: the concrete Risk-Adjusted run behind `res1ra` (one asset,
unit covariance, `rf = 0`, `tau = 1/4`, `N = 2`) at frontier point `k = 1`. -/
theorem c10_witness :
    res1ra.frontier.length = 2 ∧
    (res1ra.frontier.getD 1 default).portfolio_std =
      (((1 : ℕ) : ℚ) * (2 / (((2 : ℕ) : ℚ) - 1))) * res1ra.optimal_risky_std := by
  have h := c10_theorem 1 id id stats1 0 0.25 0.5 2 res1ra 1
    (Or.inl (optimize_risk_adjusted_ok_eq id id stats1 0 0.25 2 M1 qInv_M1
      (by with_unfolding_all decide)))
    (by decide)
  exact ⟨h.1, h.2.2.1⟩

/-! ## The best-so-far fold of the Near-Optimal sweeps -/

theorem sweepStep_snd_le {n : ℕ} (mean : Fin n → ℚ)
    (cov : Matrix (Fin n) (Fin n) ℚ) (tau theta epsilon : ℚ)
    (st : (Fin n → ℚ) × ℚ) (c : Fin n → ℚ) :
    (sweepStep mean cov tau theta epsilon st c).2 ≤ st.2 := by
  simp only [sweepStep]
  split_ifs with h1 h2
  · exact le_of_lt h2
  · exact le_refl _
  · exact le_refl _

theorem sweepStep_cases {n : ℕ} (mean : Fin n → ℚ)
    (cov : Matrix (Fin n) (Fin n) ℚ) (tau theta epsilon : ℚ)
    (st : (Fin n → ℚ) × ℚ) (c : Fin n → ℚ) :
    sweepStep mean cov tau theta epsilon st c = st ∨
      (acceptsQ mean cov tau theta epsilon c ∧
        sweepStep mean cov tau theta epsilon st c = (c, concentrationQ c)) := by
  simp only [sweepStep]
  split_ifs with h1 h2
  · exact Or.inr ⟨h1, rfl⟩
  · exact Or.inl rfl
  · exact Or.inl rfl

theorem sweepStep_snd_le_conc {n : ℕ} (mean : Fin n → ℚ)
    (cov : Matrix (Fin n) (Fin n) ℚ) (tau theta epsilon : ℚ)
    (st : (Fin n → ℚ) × ℚ) (c : Fin n → ℚ)
    (hacc : acceptsQ mean cov tau theta epsilon c) :
    (sweepStep mean cov tau theta epsilon st c).2 ≤ concentrationQ c := by
  simp only [sweepStep]
  split_ifs with h1 h2
  · exact le_refl _
  · exact le_of_not_lt h2
  · exact absurd hacc h1

theorem sweepStep_inv {n : ℕ} (mean : Fin n → ℚ)
    (cov : Matrix (Fin n) (Fin n) ℚ) (tau theta epsilon : ℚ)
    (st : (Fin n → ℚ) × ℚ) (c : Fin n → ℚ)
    (h : st.2 = concentrationQ st.1) :
    (sweepStep mean cov tau theta epsilon st c).2 =
      concentrationQ (sweepStep mean cov tau theta epsilon st c).1 := by
  simp only [sweepStep]
  split_ifs with h1 h2
  · rfl
  · exact h
  · exact h

theorem foldl_sweepStep_snd_le {n : ℕ} (mean : Fin n → ℚ)
    (cov : Matrix (Fin n) (Fin n) ℚ) (tau theta epsilon : ℚ)
    (l : List (Fin n → ℚ)) (st : (Fin n → ℚ) × ℚ) :
    (l.foldl (sweepStep mean cov tau theta epsilon) st).2 ≤ st.2 := by
  induction l generalizing st with
  | nil => exact le_refl _
  | cons hd tl ih =>
    calc (List.foldl (sweepStep mean cov tau theta epsilon)
          (sweepStep mean cov tau theta epsilon st hd) tl).2
        ≤ (sweepStep mean cov tau theta epsilon st hd).2 := ih _
      _ ≤ st.2 := sweepStep_snd_le mean cov tau theta epsilon st hd

theorem foldl_sweepStep_inv {n : ℕ} (mean : Fin n → ℚ)
    (cov : Matrix (Fin n) (Fin n) ℚ) (tau theta epsilon : ℚ)
    (l : List (Fin n → ℚ)) (st : (Fin n → ℚ) × ℚ)
    (h : st.2 = concentrationQ st.1) :
    (l.foldl (sweepStep mean cov tau theta epsilon) st).2 =
      concentrationQ (l.foldl (sweepStep mean cov tau theta epsilon) st).1 := by
  induction l generalizing st with
  | nil => exact h
  | cons hd tl ih =>
    exact ih _ (sweepStep_inv mean cov tau theta epsilon st hd h)

theorem foldl_sweepStep_min {n : ℕ} (mean : Fin n → ℚ)
    (cov : Matrix (Fin n) (Fin n) ℚ) (tau theta epsilon : ℚ)
    (l : List (Fin n → ℚ)) (st : (Fin n → ℚ) × ℚ) :
    ∀ c ∈ l, acceptsQ mean cov tau theta epsilon c →
      (l.foldl (sweepStep mean cov tau theta epsilon) st).2 ≤ concentrationQ c := by
  induction l generalizing st with
  | nil =>
    intro c hc
    cases hc
  | cons hd tl ih =>
    intro c hc hacc
    rcases List.mem_cons.mp hc with rfl | htl
    · calc (List.foldl (sweepStep mean cov tau theta epsilon)
            (sweepStep mean cov tau theta epsilon st c) tl).2
          ≤ (sweepStep mean cov tau theta epsilon st c).2 :=
          foldl_sweepStep_snd_le mean cov tau theta epsilon tl _
        _ ≤ concentrationQ c :=
          sweepStep_snd_le_conc mean cov tau theta epsilon st c hacc
    · exact ih _ c htl hacc

theorem foldl_sweepStep_fst {n : ℕ} (mean : Fin n → ℚ)
    (cov : Matrix (Fin n) (Fin n) ℚ) (tau theta epsilon : ℚ)
    (l : List (Fin n → ℚ)) (st : (Fin n → ℚ) × ℚ) :
    (l.foldl (sweepStep mean cov tau theta epsilon) st).1 = st.1 ∨
      ((l.foldl (sweepStep mean cov tau theta epsilon) st).1 ∈ l ∧
        acceptsQ mean cov tau theta epsilon
          (l.foldl (sweepStep mean cov tau theta epsilon) st).1) := by
  induction l generalizing st with
  | nil => exact Or.inl rfl
  | cons hd tl ih =>
    rcases ih (sweepStep mean cov tau theta epsilon st hd) with h | ⟨hmem, hacc⟩
    · rcases sweepStep_cases mean cov tau theta epsilon st hd with he | ⟨hacc, he⟩
      · rw [List.foldl_cons, h, he]
        exact Or.inl rfl
      · rw [List.foldl_cons, h, he]
        exact Or.inr ⟨List.mem_cons_self _ _, by rw [← he, ← h, ← List.foldl_cons]; rw [List.foldl_cons, h, he]; exact hacc⟩
    · exact Or.inr ⟨List.mem_cons_of_mem hd hmem, hacc⟩

theorem noBest_snd_eq {n : ℕ} (mean : Fin n → ℚ)
    (cov : Matrix (Fin n) (Fin n) ℚ) (tau theta : ℚ) (x_mvo : Fin n → ℚ) :
    (noBest mean cov tau theta x_mvo).2 =
      concentrationQ (noBest mean cov tau theta x_mvo).1 := by
  simp only [noBest]
  exact foldl_sweepStep_inv mean cov tau theta (utilityQ mean cov tau x_mvo)
    (sweepB (xEqual n) x_mvo) _
    (foldl_sweepStep_inv mean cov tau theta (utilityQ mean cov tau x_mvo)
      (sweepA (xEqual n) x_mvo) (x_mvo, concentrationQ x_mvo) rfl)

theorem noBest_snd_le {n : ℕ} (mean : Fin n → ℚ)
    (cov : Matrix (Fin n) (Fin n) ℚ) (tau theta : ℚ) (x_mvo : Fin n → ℚ) :
    (noBest mean cov tau theta x_mvo).2 ≤ concentrationQ x_mvo := by
  simp only [noBest]
  refine le_trans
    (foldl_sweepStep_snd_le mean cov tau theta (utilityQ mean cov tau x_mvo)
      (sweepB (xEqual n) x_mvo)
      ((sweepA (xEqual n) x_mvo).foldl
        (sweepStep mean cov tau theta (utilityQ mean cov tau x_mvo))
        (x_mvo, concentrationQ x_mvo)))
    (foldl_sweepStep_snd_le mean cov tau theta (utilityQ mean cov tau x_mvo)
      (sweepA (xEqual n) x_mvo) (x_mvo, concentrationQ x_mvo))

theorem noBest_min {n : ℕ} (mean : Fin n → ℚ)
    (cov : Matrix (Fin n) (Fin n) ℚ) (tau theta : ℚ) (x_mvo : Fin n → ℚ) :
    ∀ c, (c ∈ sweepA (xEqual n) x_mvo ∨ c ∈ sweepB (xEqual n) x_mvo) →
      acceptsQ mean cov tau theta (utilityQ mean cov tau x_mvo) c →
      (noBest mean cov tau theta x_mvo).2 ≤ concentrationQ c := by
  intro c hc hacc
  simp only [noBest]
  rcases hc with hA | hB
  · refine le_trans
      (foldl_sweepStep_snd_le mean cov tau theta (utilityQ mean cov tau x_mvo)
        (sweepB (xEqual n) x_mvo)
        ((sweepA (xEqual n) x_mvo).foldl
          (sweepStep mean cov tau theta (utilityQ mean cov tau x_mvo))
          (x_mvo, concentrationQ x_mvo)))
      (foldl_sweepStep_min mean cov tau theta (utilityQ mean cov tau x_mvo)
        (sweepA (xEqual n) x_mvo) (x_mvo, concentrationQ x_mvo) c hA hacc)
  · exact foldl_sweepStep_min mean cov tau theta (utilityQ mean cov tau x_mvo)
      (sweepB (xEqual n) x_mvo) _ c hB hacc

theorem noBest_fst {n : ℕ} (mean : Fin n → ℚ)
    (cov : Matrix (Fin n) (Fin n) ℚ) (tau theta : ℚ) (x_mvo : Fin n → ℚ) :
    (noBest mean cov tau theta x_mvo).1 = x_mvo ∨
      (((noBest mean cov tau theta x_mvo).1 ∈ sweepA (xEqual n) x_mvo ∨
        (noBest mean cov tau theta x_mvo).1 ∈ sweepB (xEqual n) x_mvo) ∧
        acceptsQ mean cov tau theta (utilityQ mean cov tau x_mvo)
          (noBest mean cov tau theta x_mvo).1) := by
  simp only [noBest]
  rcases foldl_sweepStep_fst mean cov tau theta (utilityQ mean cov tau x_mvo)
    (sweepB (xEqual n) x_mvo)
    ((sweepA (xEqual n) x_mvo).foldl
      (sweepStep mean cov tau theta (utilityQ mean cov tau x_mvo))
      (x_mvo, concentrationQ x_mvo)) with hB | ⟨hmem, hacc⟩
  · rw [hB]
    rcases foldl_sweepStep_fst mean cov tau theta (utilityQ mean cov tau x_mvo)
      (sweepA (xEqual n) x_mvo)
      (x_mvo, concentrationQ x_mvo) with hA | ⟨hmem, hacc⟩
    · exact Or.inl hA
    · exact Or.inr ⟨Or.inl hmem, hacc⟩
  · exact Or.inr ⟨Or.inr hmem, hacc⟩

/-! ## C5: the Near-Optimal result is the best accepted blend -/

/-- C5: the Near-Optimal weights are either the normalized MVO vector
`x_mvo` or a candidate from one of the two 101-step sweeps that satisfies
the acceptance conditions (`utility ≥ θ·ε` and `|sum - 1| < 1e-6`); their
concentration never exceeds the concentration of `x_mvo` and is minimal
among all accepted candidates of both sweeps. -/
theorem c5_theorem (n : ℕ) (a2d sqrtQ : ℚ → ℚ) (stats : StatsV n)
    (rf tau theta : ℚ) (N : ℕ) (res : OptimizationResults n)
    (M : Matrix (Fin n) (Fin n) ℚ) (hM : qInv stats.covariance = some M)
    (h : optimize_near_optimal a2d sqrtQ stats rf tau theta N = .ok res) :
    concentrationQ res.optimal_risky_portfolio ≤
      concentrationQ (xMvoOf M stats.mean_returns) ∧
    (res.optimal_risky_portfolio = xMvoOf M stats.mean_returns ∨
      ((res.optimal_risky_portfolio ∈ sweepA (xEqual n) (xMvoOf M stats.mean_returns) ∨
        res.optimal_risky_portfolio ∈ sweepB (xEqual n) (xMvoOf M stats.mean_returns)) ∧
        acceptsQ stats.mean_returns stats.covariance tau theta
          (utilityQ stats.mean_returns stats.covariance tau (xMvoOf M stats.mean_returns))
          res.optimal_risky_portfolio)) ∧
    ∀ c, (c ∈ sweepA (xEqual n) (xMvoOf M stats.mean_returns) ∨
        c ∈ sweepB (xEqual n) (xMvoOf M stats.mean_returns)) →
      acceptsQ stats.mean_returns stats.covariance tau theta
        (utilityQ stats.mean_returns stats.covariance tau (xMvoOf M stats.mean_returns)) c →
      concentrationQ res.optimal_risky_portfolio ≤ concentrationQ c := by
  have he := optimize_near_optimal_ok_eq a2d sqrtQ stats rf tau theta N M hM
  rw [h] at he
  have hres := (Except.ok.injEq _ _).mp he
  have hw : res.optimal_risky_portfolio =
      (noBest stats.mean_returns stats.covariance tau theta
        (xMvoOf M stats.mean_returns)).1 := by
    rw [hres]
    exact rfl
  rw [hw]
  have hconc : concentrationQ (noBest stats.mean_returns stats.covariance tau
      theta (xMvoOf M stats.mean_returns)).1 =
      (noBest stats.mean_returns stats.covariance tau theta
        (xMvoOf M stats.mean_returns)).2 :=
    (noBest_snd_eq stats.mean_returns stats.covariance tau theta
      (xMvoOf M stats.mean_returns)).symm
  refine ⟨?_, ?_, ?_⟩
  · rw [hconc]
    exact noBest_snd_le stats.mean_returns stats.covariance tau theta _
  · exact noBest_fst stats.mean_returns stats.covariance tau theta _
  · intro c hc hacc
    rw [hconc]
    exact noBest_min stats.mean_returns stats.covariance tau theta _ c hc hacc

/-- C5 witness: the theorem instantiated on the concrete Near-Optimal run
behind `resNo1` (one asset, unit covariance, mean `1/2`, `tau = 1/4`,
`theta = 1/2`). -/
theorem c5_witness :
    concentrationQ resNo1.optimal_risky_portfolio ≤
      concentrationQ (xMvoOf M1 stats1.mean_returns) ∧
    (resNo1.optimal_risky_portfolio = xMvoOf M1 stats1.mean_returns ∨
      ((resNo1.optimal_risky_portfolio ∈ sweepA (xEqual 1) (xMvoOf M1 stats1.mean_returns) ∨
        resNo1.optimal_risky_portfolio ∈ sweepB (xEqual 1) (xMvoOf M1 stats1.mean_returns)) ∧
        acceptsQ stats1.mean_returns stats1.covariance 0.25 0.5
          (utilityQ stats1.mean_returns stats1.covariance 0.25 (xMvoOf M1 stats1.mean_returns))
          resNo1.optimal_risky_portfolio)) ∧
    ∀ c, (c ∈ sweepA (xEqual 1) (xMvoOf M1 stats1.mean_returns) ∨
        c ∈ sweepB (xEqual 1) (xMvoOf M1 stats1.mean_returns)) →
      acceptsQ stats1.mean_returns stats1.covariance 0.25 0.5
        (utilityQ stats1.mean_returns stats1.covariance 0.25 (xMvoOf M1 stats1.mean_returns)) c →
      concentrationQ resNo1.optimal_risky_portfolio ≤ concentrationQ c :=
  c5_theorem 1 id id stats1 0 0.25 0.5 0 resNo1 M1 qInv_M1
    (optimize_near_optimal_ok_eq id id stats1 0 0.25 0.5 0 M1 qInv_M1)

/-! ## Linear-algebra facts for the weight-sum invariant -/

theorem onesV_dot {n : ℕ} (x : Fin n → ℚ) :
    Matrix.dotProduct (onesV n) x = ∑ i, x i := by
  simp [onesV, Matrix.dotProduct]

theorem raWeights_sum {n : ℕ} (M : Matrix (Fin n) (Fin n) ℚ)
    (mean : Fin n → ℚ) (drf tau : ℚ) (hA : raA M ≠ 0) (htau : tau ≠ 0) :
    ∑ i, raWeights M mean drf tau i = 1 := by
  have hv : (fun j => raExcess mean drf j - raLambda M mean drf tau) =
      raExcess mean drf - raLambda M mean drf tau • onesV n := by
    funext j
    simp [onesV, smul_eq_mul]
  have hsum : ∑ i, raWeights M mean drf tau i =
      Matrix.dotProduct (onesV n)
        (M.mulVec (fun j => raExcess mean drf j - raLambda M mean drf tau)) *
        (1 / (2 * tau)) := by
    simp only [raWeights]
    rw [onesV_dot, Finset.sum_mul]
  rw [hsum, hv, Matrix.mulVec_sub, Matrix.mulVec_smul, Matrix.dotProduct_sub,
    Matrix.dotProduct_smul, smul_eq_mul]
  have hB : Matrix.dotProduct (onesV n) (M.mulVec (raExcess mean drf)) =
      raB M mean drf := rfl
  have hA2 : Matrix.dotProduct (onesV n) (M.mulVec (onesV n)) = raA M := rfl
  rw [hB, hA2]
  unfold raLambda
  rw [div_mul_cancel₀ _ hA]
  have h2 : raB M mean drf - (raB M mean drf - 2 * tau) = 2 * tau := by ring
  rw [h2, mul_one_div, div_self (mul_ne_zero two_ne_zero htau)]

theorem raA_pos {n : ℕ} (hn : 0 < n) {cov M : Matrix (Fin n) (Fin n) ℚ}
    (hInv : cov * M = 1)
    (hPD : ∀ x : Fin n → ℚ, x ≠ 0 → 0 < Matrix.dotProduct x (cov.mulVec x)) :
    0 < raA M := by
  have hy : cov.mulVec (M.mulVec (onesV n)) = onesV n := by
    rw [Matrix.mulVec_mulVec, hInv, Matrix.one_mulVec]
  have hyne : M.mulVec (onesV n) ≠ 0 := by
    intro h0
    rw [h0, Matrix.mulVec_zero] at hy
    have h1 := congrFun hy ⟨0, hn⟩
    simp [onesV] at h1
  have hpd := hPD _ hyne
  rw [hy] at hpd
  unfold raA
  rw [Matrix.dotProduct_comm]
  exact hpd

theorem xMvoOf_sum {n : ℕ} (M : Matrix (Fin n) (Fin n) ℚ) (mean : Fin n → ℚ)
    (hs : ∑ i, M.mulVec mean i ≠ 0) : ∑ i, xMvoOf M mean i = 1 := by
  simp only [xMvoOf]
  rw [← Finset.sum_div]
  exact div_self hs

theorem xEqual_sum {n : ℕ} (hn : 0 < n) : ∑ i, xEqual n i = 1 := by
  have hnq : (n : ℚ) ≠ 0 := Nat.cast_ne_zero.mpr hn.ne'
  simp only [xEqual]
  rw [Finset.sum_const, Finset.card_univ, Fintype.card_fin, nsmul_eq_mul]
  rw [mul_one_div, div_self hnq]

theorem sweepA_mem_sum {n : ℕ} {x_equal x_mvo c : Fin n → ℚ}
    (hc : c ∈ sweepA x_equal x_mvo) (he : ∑ j, x_equal j = 1)
    (hm : ∑ j, x_mvo j = 1) : ∑ j, c j = 1 := by
  obtain ⟨i, hi, rfl⟩ := List.mem_map.mp hc
  simp only []
  rw [Finset.sum_add_distrib, ← Finset.sum_mul, ← Finset.sum_mul, he, hm]
  ring

theorem sweepB_mem_sum {n : ℕ} {x_equal x_mvo c : Fin n → ℚ}
    (hc : c ∈ sweepB x_equal x_mvo) (he : ∑ j, x_equal j = 1)
    (hm : ∑ j, x_mvo j = 1) : ∑ j, c j = 1 := by
  obtain ⟨i, hi, rfl⟩ := List.mem_map.mp hc
  simp only []
  rw [Finset.sum_add_distrib, ← Finset.sum_mul, ← Finset.sum_mul, he, hm]
  ring

/-! ## C1: the weights-sum-to-one invariant -/

theorem concQ_nonneg {n : ℕ} (x : Fin n → ℚ) : 0 ≤ concentrationQ x :=
  Finset.sum_nonneg fun i _ => mul_self_nonneg (x i)

theorem sweepStep_eq_self {n : ℕ} (mean : Fin n → ℚ)
    (cov : Matrix (Fin n) (Fin n) ℚ) (tau theta epsilon : ℚ)
    (st : (Fin n → ℚ) × ℚ) (c : Fin n → ℚ)
    (h : st.2 ≤ concentrationQ c) :
    sweepStep mean cov tau theta epsilon st c = st := by
  simp only [sweepStep]
  split_ifs with h1 h2
  · exact absurd h2 (not_lt.mpr h)
  · rfl
  · rfl

theorem foldl_sweepStep_of_le {n : ℕ} (mean : Fin n → ℚ)
    (cov : Matrix (Fin n) (Fin n) ℚ) (tau theta epsilon : ℚ)
    (l : List (Fin n → ℚ)) (st : (Fin n → ℚ) × ℚ) (hst : st.2 ≤ 0) :
    l.foldl (sweepStep mean cov tau theta epsilon) st = st := by
  induction l with
  | nil => rfl
  | cons hd tl ih =>
    rw [List.foldl_cons,
      sweepStep_eq_self mean cov tau theta epsilon st hd
        (le_trans hst (concQ_nonneg hd))]
    exact ih

/-- C1: (1) whenever the Risk-Adjusted method returns a result, the weights
sum to 1 within `1e-6` — the explicit check rejects everything else with
`WeightNormalizationError`; (2) on valid inputs (at least one asset,
`tau > 0`, invertible positive-definite covariance) the Risk-Adjusted
method does return a result whose weights sum to exactly 1; (3) the
Near-Optimal method returns weights summing to exactly 1 provided,
additionally, the unnormalized MVO direction `Σ⁻¹μ` has non-zero sum (the
amendment: the claim fails without that proviso). -/
theorem c1_theorem :
    (∀ (n : ℕ) (a2d sqrtQ : ℚ → ℚ) (stats : StatsV n) (rf tau : ℚ) (N : ℕ)
      (res : OptimizationResults n),
      optimize_risk_adjusted a2d sqrtQ stats rf tau N = .ok res →
      |(∑ i, res.optimal_risky_portfolio i) - 1| ≤ 1e-6) ∧
    (∀ (n : ℕ) (a2d sqrtQ : ℚ → ℚ) (stats : StatsV n) (rf tau : ℚ) (N : ℕ),
      0 < n → 0 < tau → stats.covariance.det ≠ 0 →
      (∀ x : Fin n → ℚ, x ≠ 0 →
        0 < Matrix.dotProduct x (stats.covariance.mulVec x)) →
      ∃ res, optimize_risk_adjusted a2d sqrtQ stats rf tau N = .ok res ∧
        ∑ i, res.optimal_risky_portfolio i = 1) ∧
    (∀ (n : ℕ) (a2d sqrtQ : ℚ → ℚ) (stats : StatsV n) (rf tau theta : ℚ)
      (N : ℕ) (M : Matrix (Fin n) (Fin n) ℚ),
      0 < n → qInv stats.covariance = some M →
      (∑ i, M.mulVec stats.mean_returns i) ≠ 0 →
      ∃ res, optimize_near_optimal a2d sqrtQ stats rf tau theta N = .ok res ∧
        ∑ i, res.optimal_risky_portfolio i = 1) := by
  refine ⟨?_, ?_, ?_⟩
  · intro n a2d sqrtQ stats rf tau N res h
    unfold optimize_risk_adjusted at h
    cases hq : qInv stats.covariance with
    | none =>
      simp only [hq] at h
      exact Except.noConfusion h
    | some M =>
      simp only [hq] at h
      by_cases hch :
        1e-6 < |(∑ i, raWeights M stats.mean_returns (a2d rf) tau i) - 1|
      · rw [if_pos hch] at h
        exact Except.noConfusion h
      · rw [if_neg hch] at h
        rw [Except.ok.injEq] at h
        rw [← h]
        exact not_lt.mp hch
  · intro n a2d sqrtQ stats rf tau N hn htau hdet hPD
    have hM := qInv_isSome_of_det hdet
    have hInv := qInv_mul_eq_one hM
    have hA := (raA_pos hn hInv hPD).ne'
    have hsum := raWeights_sum (stats.covariance.det⁻¹ • stats.covariance.adjugate)
      stats.mean_returns (a2d rf) tau hA htau.ne'
    have hcheck : ¬ 1e-6 <
        |(∑ i, raWeights (stats.covariance.det⁻¹ • stats.covariance.adjugate)
          stats.mean_returns (a2d rf) tau i) - 1| := by
      rw [hsum]
      norm_num
    exact ⟨_, optimize_risk_adjusted_ok_eq a2d sqrtQ stats rf tau N _ hM hcheck,
      hsum⟩
  · intro n a2d sqrtQ stats rf tau theta N M hn hM hs
    refine ⟨_, optimize_near_optimal_ok_eq a2d sqrtQ stats rf tau theta N M hM,
      ?_⟩
    have hm : ∑ i, xMvoOf M stats.mean_returns i = 1 := xMvoOf_sum M _ hs
    have he : ∑ i, xEqual n i = 1 := xEqual_sum hn
    show ∑ i, (noBest stats.mean_returns stats.covariance tau theta
      (xMvoOf M stats.mean_returns)).1 i = 1
    rcases noBest_fst stats.mean_returns stats.covariance tau theta
      (xMvoOf M stats.mean_returns) with hx | ⟨hmem | hmem, _⟩
    · rw [hx]
      exact hm
    · exact sweepA_mem_sum hmem he hm
    · exact sweepB_mem_sum hmem he hm

/-- C1 counterexample.  The claim quantifies over every input with
invertible covariance and `tau > 0`.  With one asset, unit covariance
(invertible, a genuine positive-definite covariance) and mean return `0`,
the Near-Optimal normalization divides by `sum(Σ⁻¹μ) = 0`: the method
still returns `Ok`, but its weights do not sum to 1 within `1e-6` (in the
rational model the division by zero yields weight `0`; in the `f64` source
it yields non-finite weights — under neither semantics is the sum within
`1e-6` of 1). -/
theorem c1_counterexample :
    statsM.covariance.det ≠ 0 ∧ (0 : ℚ) < 1 ∧
    ∃ res, optimize_near_optimal id id statsM 0 1 0.5 0 = .ok res ∧
      1e-6 < |(∑ i, res.optimal_risky_portfolio i) - 1| := by
  have hMM : qInv statsM.covariance = some M1 := qInv_M1
  have hx : xMvoOf M1 statsM.mean_returns = fun _ => (0 : ℚ) := by
    funext i
    fin_cases i
    with_unfolding_all decide
  have hconc : concentrationQ (xMvoOf M1 statsM.mean_returns) = 0 := by
    rw [hx]
    simp [concentrationQ, Matrix.dotProduct]
  have hnb : noBest statsM.mean_returns statsM.covariance 1 0.5
      (xMvoOf M1 statsM.mean_returns) =
      (xMvoOf M1 statsM.mean_returns,
        concentrationQ (xMvoOf M1 statsM.mean_returns)) := by
    simp only [noBest]
    rw [foldl_sweepStep_of_le statsM.mean_returns statsM.covariance 1 0.5
      (utilityQ statsM.mean_returns statsM.covariance 1
        (xMvoOf M1 statsM.mean_returns))
      (sweepA (xEqual 1) (xMvoOf M1 statsM.mean_returns)) _ (le_of_eq hconc)]
    exact foldl_sweepStep_of_le _ _ _ _ _ _ _ (le_of_eq hconc)
  refine ⟨by with_unfolding_all decide, by norm_num,
    _, optimize_near_optimal_ok_eq id id statsM 0 1 0.5 0 M1 hMM, ?_⟩
  show 1e-6 < |(∑ i, (noBest statsM.mean_returns statsM.covariance 1 0.5
    (xMvoOf M1 statsM.mean_returns)).1 i) - 1|
  rw [hnb]
  rw [hx]
  norm_num

/-- C1 witness: all three parts of the amended theorem exercised on the
one-asset unit-covariance statistics `stats1`. -/
theorem c1_witness :
    (|(∑ i, res1ra.optimal_risky_portfolio i) - 1| ≤ 1e-6) ∧
    (∃ res, optimize_risk_adjusted id id stats1 0 0.25 2 = .ok res ∧
      ∑ i, res.optimal_risky_portfolio i = 1) ∧
    (∃ res, optimize_near_optimal id id stats1 0 0.25 0.5 0 = .ok res ∧
      ∑ i, res.optimal_risky_portfolio i = 1) := by
  have hPD : ∀ x : Fin 1 → ℚ, x ≠ 0 →
      0 < Matrix.dotProduct x (stats1.covariance.mulVec x) := by
    intro x hx
    have hx0 : x 0 ≠ 0 := by
      intro h0
      apply hx
      funext i
      fin_cases i
      exact h0
    have hd : Matrix.dotProduct x (stats1.covariance.mulVec x) = x 0 * x 0 := by
      simp [Matrix.dotProduct, Matrix.mulVec, stats1, Fin.sum_univ_one]
    rw [hd]
    exact mul_self_pos.mpr hx0
  exact ⟨c1_theorem.1 1 id id stats1 0 0.25 2 res1ra
      (optimize_risk_adjusted_ok_eq id id stats1 0 0.25 2 M1 qInv_M1
        (by with_unfolding_all decide)),
    c1_theorem.2.1 1 id id stats1 0 0.25 2 (by decide) (by norm_num)
      (by with_unfolding_all decide) hPD,
    c1_theorem.2.2 1 id id stats1 0 0.25 0.5 0 M1 (by decide) qInv_M1
      (by with_unfolding_all decide)⟩

/-! ## C2: grouping, ordering and the return computation of the estimator -/

theorem groupByAsset_append (ds : List Record) (r : Record) :
    groupByAsset (ds ++ [r]) =
      insertPrice (groupByAsset ds) r.asset r.price := by
  unfold groupByAsset
  rw [List.foldl_append]
  rfl

theorem insertPrice_keys (acc : List (String × List ℚ)) (a : String) (p : ℚ) :
    (insertPrice acc a p).map Prod.fst = acc.map Prod.fst ∨
    (insertPrice acc a p).map Prod.fst = acc.map Prod.fst ++ [a] := by
  induction acc with
  | nil => exact Or.inr rfl
  | cons hd tl ih =>
    obtain ⟨k, ps⟩ := hd
    simp only [insertPrice]
    split_ifs with hk
    · exact Or.inl rfl
    · simp only [List.map_cons]
      rcases ih with he | he
      · rw [he]
        exact Or.inl rfl
      · rw [he]
        exact Or.inr rfl

theorem insertPrice_nodup (acc : List (String × List ℚ)) (a : String) (p : ℚ)
    (h : (acc.map Prod.fst).Nodup) :
    ((insertPrice acc a p).map Prod.fst).Nodup := by
  induction acc with
  | nil => simp [insertPrice]
  | cons hd tl ih =>
    obtain ⟨k, ps⟩ := hd
    simp only [insertPrice]
    split_ifs with hk
    · exact h
    · simp only [List.map_cons] at h ⊢
      rw [List.nodup_cons] at h ⊢
      refine ⟨?_, ih h.2⟩
      intro hmem
      rcases insertPrice_keys tl a p with he | he
      · rw [he] at hmem
        exact h.1 hmem
      · rw [he] at hmem
        rcases List.mem_append.mp hmem with hm | hm
        · exact h.1 hm
        · rw [List.mem_singleton] at hm
          exact hk hm

theorem groupByAsset_nodup (data : List Record) :
    ((groupByAsset data).map Prod.fst).Nodup := by
  induction data using List.reverseRecOn with
  | nil => simp [groupByAsset]
  | append_singleton ds r ih =>
    rw [groupByAsset_append]
    exact insertPrice_nodup _ _ _ ih

theorem insertPrice_lookup_same (acc : List (String × List ℚ)) (a : String)
    (p : ℚ) : lookupG (insertPrice acc a p) a = lookupG acc a ++ [p] := by
  induction acc with
  | nil => simp [insertPrice, lookupG, List.find?]
  | cons hd tl ih =>
    obtain ⟨k, ps⟩ := hd
    simp only [insertPrice]
    split_ifs with hk
    · subst hk
      simp [lookupG, List.find?]
    · have hk2 : (decide (k = a)) = false := decide_eq_false hk
      simp only [lookupG, List.find?, hk2] at ih ⊢
      exact ih

theorem insertPrice_lookup_other (acc : List (String × List ℚ)) (a : String)
    (p : ℚ) (b : String) (h : b ≠ a) :
    lookupG (insertPrice acc a p) b = lookupG acc b := by
  induction acc with
  | nil =>
    have hab : (decide (a = b)) = false := decide_eq_false fun he => h he.symm
    simp [insertPrice, lookupG, List.find?, hab]
  | cons hd tl ih =>
    obtain ⟨k, ps⟩ := hd
    simp only [insertPrice]
    split_ifs with hk
    · subst hk
      have hkb : (decide (k = b)) = false := decide_eq_false fun he => h he.symm
      simp [lookupG, List.find?, hkb]
    · by_cases hkb : k = b
      · subst hkb
        simp [lookupG, List.find?]
      · have hkb2 : (decide (k = b)) = false := decide_eq_false hkb
        simp only [lookupG, List.find?, hkb2] at ih ⊢
        exact ih

theorem groupByAsset_lookup (data : List Record) (a : String) :
    lookupG (groupByAsset data) a =
      ((data.filter fun r => r.asset = a).map fun r => r.price) := by
  induction data using List.reverseRecOn with
  | nil => rfl
  | append_singleton ds r ih =>
    rw [groupByAsset_append, List.filter_append, List.map_append]
    by_cases hr : r.asset = a
    · subst hr
      rw [insertPrice_lookup_same, ih]
      have h2 : ([r].filter fun s => decide (s.asset = r.asset)) = [r] := by
        simp [List.filter]
      rw [h2]
      rfl
    · rw [insertPrice_lookup_other _ _ _ _ fun he => hr he.symm, ih]
      have h2 : ([r].filter fun s => decide (s.asset = a)) = [] := by
        simp [List.filter, decide_eq_false hr]
      rw [h2]
      simp

theorem lookupG_of_mem_nodup (acc : List (String × List ℚ))
    (hnd : (acc.map Prod.fst).Nodup) (g : String × List ℚ) (hg : g ∈ acc) :
    lookupG acc g.1 = g.2 := by
  induction acc with
  | nil => cases hg
  | cons hd tl ih =>
    rcases List.mem_cons.mp hg with rfl | htl
    · simp [lookupG, List.find?]
    · simp only [List.map_cons, List.nodup_cons] at hnd
      have hne : hd.1 ≠ g.1 := by
        intro he
        exact hnd.1 (he ▸ List.mem_map_of_mem Prod.fst htl)
      have hd2 : (decide (hd.1 = g.1)) = false := decide_eq_false hne
      simp only [lookupG, List.find?, hd2]
      exact ih hnd.2 htl

theorem calculate_ok_shape {data : List Record} {stats : PortfolioStats}
    (h : calculate_portfolio_stats data = .ok stats) :
    stats.assets = (groupByAsset data).map Prod.fst ∧
    2 ≤ (groupByAsset data).foldl (fun m g => min m g.2.length) usizeMax ∧
    stats.returns_matrix = (groupByAsset data).map fun g =>
      computeReturns
        (g.2.take ((groupByAsset data).foldl (fun m g => min m g.2.length) usizeMax))
        ((groupByAsset data).foldl (fun m g => min m g.2.length) usizeMax) := by
  simp only [calculate_portfolio_stats] at h
  by_cases h0 : ((groupByAsset data).map Prod.fst).length = 0
  · rw [if_pos h0] at h
    exact Except.noConfusion h
  · rw [if_neg h0] at h
    by_cases h1 : (groupByAsset data).foldl (fun m g => min m g.2.length) usizeMax < 2
    · rw [if_pos h1] at h
      exact Except.noConfusion h
    · rw [if_neg h1] at h
      cases hc : compute_sample_covariance ((groupByAsset data).map fun g =>
          computeReturns
            (g.2.take ((groupByAsset data).foldl (fun m g => min m g.2.length) usizeMax))
            ((groupByAsset data).foldl (fun m g => min m g.2.length) usizeMax)) with
      | error e =>
        rw [hc] at h
        exact Except.noConfusion h
      | ok covariance =>
        rw [hc] at h
        rw [Except.ok.injEq] at h
        refine ⟨?_, by omega, ?_⟩
        · rw [← h]
        · rw [← h]

/-- C2 counterexample.  The claim states that each asset's observations are
ordered by date (ascending) before differencing, for every arrival order.
On a single asset arriving in the order day1, day3, day2 with prices
`1, 4, 2`, date-sorted differencing gives returns `[1, 1]`
(see `specSortedReturns`), but the estimator returns `[3, -1/2]`: it
differences the prices in arrival order and never reads `record.date`. -/
theorem c2_counterexample :
    calculate_portfolio_stats dataC2 =
      .ok ⟨["A"], [5/4], [[49/8]], [[3, -1/2]]⟩ ∧
    specSortedReturns dataC2 "A" 3 = [1, 1] ∧
    ([3, -1/2] : List ℚ) ≠ [1, 1] :=
  ⟨by with_unfolding_all decide, by with_unfolding_all decide,
    by with_unfolding_all decide⟩

/-- C2 amended: the estimator groups the observations by asset preserving
arrival order and never consults the date field: row `i` of the returns
matrix is exactly the simple-return differencing of the `i`-th asset's
prices in arrival order, truncated to the minimal common length (recovered
here as the row length plus one).  Chronological sorting by date is not
performed, so the spec's guarantee holds only for inputs that already
arrive date-sorted within each asset. -/
theorem c2_theorem (data : List Record) (stats : PortfolioStats)
    (h : calculate_portfolio_stats data = .ok stats) :
    ∀ i, i < stats.assets.length →
      stats.returns_matrix.getD i [] =
        arrivalReturns data (stats.assets.getD i "")
          ((stats.returns_matrix.getD i []).length + 1) := by
  obtain ⟨ha, hmin, hrm⟩ := calculate_ok_shape h
  intro i hi
  have hiAP : i < (groupByAsset data).length := by
    rw [ha, List.length_map] at hi
    exact hi
  have hgetDAP : (groupByAsset data).getD i ("", []) = (groupByAsset data)[i] := by
    rw [List.getD_eq_getElem?_getD, List.getElem?_eq_getElem hiAP]
    rfl
  have hrow : stats.returns_matrix.getD i [] =
      computeReturns
        (((groupByAsset data).getD i ("", [])).2.take
          ((groupByAsset data).foldl (fun m g => min m g.2.length) usizeMax))
        ((groupByAsset data).foldl (fun m g => min m g.2.length) usizeMax) := by
    rw [hrm, List.getD_eq_getElem?_getD, List.getElem?_map,
      List.getElem?_eq_getElem hiAP, hgetDAP]
    rfl
  have hasset : stats.assets.getD i "" = ((groupByAsset data).getD i ("", [])).1 := by
    rw [ha, List.getD_eq_getElem?_getD, List.getElem?_map,
      List.getElem?_eq_getElem hiAP, hgetDAP]
    rfl
  have hmem : (groupByAsset data).getD i ("", []) ∈ groupByAsset data := by
    rw [hgetDAP]
    exact List.getElem_mem hiAP
  have hval : ((groupByAsset data).getD i ("", [])).2 =
      ((data.filter fun r =>
        r.asset = ((groupByAsset data).getD i ("", [])).1).map fun r => r.price) := by
    rw [← groupByAsset_lookup data]
    exact (lookupG_of_mem_nodup _ (groupByAsset_nodup data) _ hmem).symm
  rw [hrow]
  have hlen2 : (computeReturns
      (((groupByAsset data).getD i ("", [])).2.take
        ((groupByAsset data).foldl (fun m g => min m g.2.length) usizeMax))
      ((groupByAsset data).foldl (fun m g => min m g.2.length) usizeMax)).length + 1 =
      (groupByAsset data).foldl (fun m g => min m g.2.length) usizeMax := by
    unfold computeReturns
    rw [List.length_map, List.length_range]
    omega
  rw [hlen2, hasset]
  unfold arrivalReturns
  rw [← hval]

/-- C2 witness: the amended theorem applied to the out-of-order input
`dataC2` and the statistics the estimator computes on it. -/
theorem c2_witness :
    (PortfolioStats.mk ["A"] [5/4] [[49/8]] [[3, -1/2]]).returns_matrix.getD 0 [] =
      arrivalReturns dataC2
        ((PortfolioStats.mk ["A"] [5/4] [[49/8]] [[3, -1/2]]).assets.getD 0 "")
        (((PortfolioStats.mk ["A"] [5/4] [[49/8]]
          [[3, -1/2]]).returns_matrix.getD 0 []).length + 1) :=
  c2_theorem dataC2 ⟨["A"], [5/4], [[49/8]], [[3, -1/2]]⟩
    (by with_unfolding_all decide) 0 (by decide)

end Quars
